import Mathlib

/-!
Shallow embedding of the multi-MCP chat client (tool federation and
agentic tool-call loop) and proofs about its behaviour.

The embedding follows the Python sources:
* `tool_manager.py` — the `ToolManager` registry (prefixed tool names,
  reverse mapping, catalog of tool definitions for the model);
* `client.py` — connection setup (`_connect_single_server`,
  `connect_to_servers`), the per-round tool-dispatch loop inside
  `process_query`, and `cleanup` via the `AsyncExitStack`.

Python dicts are modelled as association lists with insertion-order
semantics: inserting an existing key replaces its value in place, a new
key is appended at the end; lookup finds the (unique) entry.
-/

namespace MultiMCP

/-- A Python-dict insert on an association list: if the key is present its
value is replaced in place (position kept), otherwise the pair is appended
at the end. -/
def dictInsert {α : Type} : List (String × α) → String → α → List (String × α)
  | [], k, v => [(k, v)]
  | (k', v') :: rest, k, v =>
    if k = k' then (k', v) :: rest else (k', v') :: dictInsert rest k v

/-- A Python-dict lookup (`dict.get`): first entry with the key. -/
def dictGet {α : Type} : List (String × α) → String → Option α
  | [], _ => none
  | (k', v') :: rest, k => if k = k' then some v' else dictGet rest k

/-- The keys of the dict, in insertion order (`list(d.keys())`). -/
def dictKeys {α : Type} (l : List (String × α)) : List String :=
  l.map (·.1)

/-- Python `s[:-1]`: the string with its last character removed. -/
def stripLast (s : String) : String :=
  ⟨s.data.dropLast⟩

/-- Python `s.upper()`: every character uppercased. -/
def strUpper (s : String) : String :=
  ⟨s.data.map Char.toUpper⟩

/-- One tool as advertised by a backend (`mcp.Tool`): original identifier,
description, input schema (opaque payload here). -/
structure Tool where
  name : String
  description : String
  inputSchema : String
deriving DecidableEq, Repr

/-- One entry of the merged catalog sent to the model
(an element of `ToolManager._tool_definitions_for_claude`). -/
structure ToolDef where
  name : String
  description : String
  input_schema : String
deriving DecidableEq, Repr

/-- Backend sessions are opaque handles; we model one as a numeric id. -/
abbrev Session := Nat

/-- The state of `ToolManager` (tool_manager.py): the catalog list and the
reverse mapping from prefixed name to (original name, session). -/
structure ToolManager where
  tool_definitions_for_claude : List ToolDef
  tool_mapping : List (String × (String × Session))
deriving DecidableEq, Repr

/-- `ToolManager.__init__`: both containers empty. -/
def ToolManager.init : ToolManager := ⟨[], []⟩

/-- Python `s.endswith('_')` for the one-character suffix: the last
character of the string is an underscore. -/
def endsWithUnderscore (pfx : String) : Bool :=
  pfx.data.getLast? = some '_'

/-- The prefix normalisation at the top of `ToolManager.add_session`:
`if not session_prefix.endswith('_'): session_prefix += '_'`. -/
def ensureUnderscore (pfx : String) : String :=
  if endsWithUnderscore pfx then pfx else pfx ++ "_"

/-- The body of the `for tool in tools` loop of `ToolManager.add_session`,
for one tool: append the prefixed catalog entry and store the reverse
mapping. `p` is the already-normalised prefix. -/
def addTool (p : String) (session : Session) (tm : ToolManager) (tool : Tool) :
    ToolManager :=
  { tool_definitions_for_claude :=
      tm.tool_definitions_for_claude ++
        [⟨p ++ tool.name,
          "[" ++ strUpper (stripLast p) ++ "] " ++ tool.description,
          tool.inputSchema⟩],
    tool_mapping :=
      dictInsert tm.tool_mapping (p ++ tool.name) (tool.name, session) }

/-- `ToolManager.add_session(session_prefix, session, tools)`. -/
def ToolManager.add_session (tm : ToolManager) (pfx : String)
    (session : Session) (tools : List Tool) : ToolManager :=
  tools.foldl (addTool (ensureUnderscore pfx) session) tm

/-- `ToolManager.get_all_tools_for_claude`. -/
def ToolManager.get_all_tools_for_claude (tm : ToolManager) : List ToolDef :=
  tm.tool_definitions_for_claude

/-- `ToolManager.get_tool_call_details(prefixed_tool_name)`:
`self._tool_mapping.get(prefixed_tool_name)`. -/
def ToolManager.get_tool_call_details (tm : ToolManager)
    (prefixed_tool_name : String) : Option (String × Session) :=
  dictGet tm.tool_mapping prefixed_tool_name

/-- `ToolManager.get_available_tool_names`: `list(self._tool_mapping.keys())`. -/
def ToolManager.get_available_tool_names (tm : ToolManager) : List String :=
  dictKeys tm.tool_mapping

/-- One registration request: prefix, session handle, advertised tools. -/
abbrev Registration := String × Session × List Tool

/-- Run a sequence of `add_session` registrations from the empty manager. -/
def runRegs (regs : List Registration) : ToolManager :=
  regs.foldl (fun tm r => tm.add_session r.1 r.2.1 r.2.2) ToolManager.init

/-- The prefixed identifiers one registration generates, in list order. -/
def genKeys (pfx : String) (tools : List Tool) : List String :=
  tools.map (fun t => ensureUnderscore pfx ++ t.name)

/-- All prefixed identifiers a registration sequence generates, in order. -/
def allKeys : List Registration → List String
  | [] => []
  | r :: rest => genKeys r.1 r.2.2 ++ allKeys rest

/-- The names of the merged catalog, in catalog order. -/
def catalogNames (tm : ToolManager) : List String :=
  tm.tool_definitions_for_claude.map (·.name)

/-! ## The client model (client.py) -/

/-- A resource entered on the `AsyncExitStack` during `_connect_single_server`:
the stdio transport or the `ClientSession`, tagged with the backend prefix. -/
inductive Resource where
  | transport (pfx : String)
  | session (pfx : String)
deriving DecidableEq, Repr

/-- What happens when `_connect_single_server` runs for one backend: where an
exception is raised (if any), and the tool catalog when everything succeeds.
The constructors name the four operations of the `try` block that can raise
(`stdio_client`, `ClientSession`, `session.initialize`, `session.list_tools`). -/
inductive ConnectOutcome where
  | transportRaises
  | sessionRaises
  | initRaises
  | listToolsRaises
  | ok (tools : List Tool)
deriving DecidableEq, Repr

/-- Whether the outcome is an exception (the `except` branch runs). -/
def ConnectOutcome.isFailure : ConnectOutcome → Bool
  | .ok _ => false
  | _ => true

/-- The resources entered on the exit stack before the outcome is decided:
nothing if `stdio_client` raises, the transport if `ClientSession` raises,
transport and session otherwise. -/
def ConnectOutcome.acquired (pfx : String) : ConnectOutcome → List Resource
  | .transportRaises => []
  | .sessionRaises => [.transport pfx]
  | _ => [.transport pfx, .session pfx]

/-- The mutable state of `MultiMCPClient` that the claims speak about:
the tool manager, the `sessions` dict, the `connected` flag, and the
`AsyncExitStack` contents in acquisition order. -/
structure ClientState where
  tool_manager : ToolManager
  sessions : List (String × Session)
  connected : Bool
  exit_stack : List Resource
deriving DecidableEq, Repr

/-- `MultiMCPClient.__init__`: empty manager, no sessions, not connected,
empty exit stack. -/
def ClientState.init : ClientState := ⟨ToolManager.init, [], false, []⟩

/-- `MultiMCPClient._connect_single_server(prefix, params)`: returns the
updated state and the boolean result. On an exception the tool manager and
sessions are untouched (the resources already entered stay on the stack).
On success with a non-empty catalog, `add_session` registers the tools and
the session is stored; with an empty catalog only the session is stored.
Either success path returns `True`. -/
def connectSingleServer (st : ClientState) (pfx : String) (sess : Session)
    (outcome : ConnectOutcome) : ClientState × Bool :=
  let st := { st with exit_stack := st.exit_stack ++ outcome.acquired pfx }
  match outcome with
  | .ok tools =>
    if tools ≠ [] then
      ({ st with
          tool_manager := st.tool_manager.add_session pfx sess tools,
          sessions := dictInsert st.sessions pfx sess }, true)
    else
      ({ st with sessions := dictInsert st.sessions pfx sess }, true)
  | _ => (st, false)

/-- `MultiMCPClient.connect_to_servers`: attempts the "github" backend, then
the "actions" backend, each unconditionally; afterwards, if the `sessions`
dict is empty the process exits fatally (`sys.exit(1)`, modelled by the
returned flag `true`) before `connected` is set; otherwise `connected`
becomes `True` and the flag is `false`. -/
def connectToServers (ghSess acSess : Session)
    (ghOutcome acOutcome : ConnectOutcome) : ClientState × Bool :=
  let r1 := connectSingleServer ClientState.init "github" ghSess ghOutcome
  let r2 := connectSingleServer r1.1 "actions" acSess acOutcome
  let st := r2.1
  if st.sessions = [] then (st, true)
  else ({ st with connected := true }, false)

/-- `AsyncExitStack.aclose()`: the contexts entered are exited
last-in-first-out; the result is the ordered release log. -/
def acloseLog : List Resource → List Resource
  | [] => []
  | r :: rest => acloseLog rest ++ [r]

/-- `MultiMCPClient.cleanup()`: `await self.exit_stack.aclose()` — the
release log it produces for the client state. -/
def cleanupLog (st : ClientState) : List Resource :=
  acloseLog st.exit_stack

/-! ## The tool-use round inside `process_query` (client.py) -/

/-- One content block of a model response: a text block or a tool-invocation
block `{id, name, input}`. -/
inductive ContentBlock where
  | text (s : String)
  | tool_use (id name tInput : String)
deriving DecidableEq, Repr

/-- One `tool_result` block fed back to the model. -/
structure ToolResultBlock where
  tool_use_id : String
  content : String
  is_error : Bool
deriving DecidableEq, Repr

/-- The content of one conversation message. -/
inductive MsgContent where
  | ofText (s : String)
  | ofBlocks (bs : List ContentBlock)
  | ofResults (rs : List ToolResultBlock)
deriving DecidableEq, Repr

/-- One message of the conversation history, with its role string. -/
structure Message where
  role : String
  content : MsgContent
deriving DecidableEq, Repr

/-- What `session.call_tool` hands back when it does not raise:
`tool_call_response.content` is a basic serializable value, or an object
whose `str()` succeeds, or an object whose `str()` raises (named by its
type name). -/
inductive Payload where
  | basic (s : String)
  | stringable (s : String)
  | unstringable (typeName : String)
deriving DecidableEq, Repr

/-- The behaviour of the backends: given a session handle, the original
tool name and the input, `call_tool` either raises (`.error` with the
description of the exception) or returns a payload. -/
def Backend := Session → String → String → Except String Payload

/-- The tool-result block the round builds for one `tool_use` block,
following the branches of `process_query`: unknown tool, backend raising,
serializable result, string-converted result, unserializable result. -/
def toolUseResult (tm : ToolManager) (backend : Backend)
    (id name tInput : String) : ToolResultBlock :=
  match tm.get_tool_call_details name with
  | none =>
    ⟨id, "Client error: Tool '" ++ name ++ "' is not recognized or available.",
      true⟩
  | some (orig, sess) =>
    match backend sess orig tInput with
    | .error e => ⟨id, "Error executing tool '" ++ name ++ "': " ++ e, true⟩
    | .ok (.basic s) => ⟨id, s, false⟩
    | .ok (.stringable s) => ⟨id, s, false⟩
    | .ok (.unstringable ty) =>
      ⟨id, "Error: Result object of type " ++ ty ++
        " could not be serialized.", true⟩

/-- The backend calls `process_query` makes for one content block: none for
a text block or an unknown tool, the single `call_tool` invocation
`(session, original name, input)` otherwise. -/
def blockCalls (tm : ToolManager) (b : ContentBlock) :
    List (Session × String × String) :=
  match b with
  | .text _ => []
  | .tool_use _ name tInput =>
    match tm.get_tool_call_details name with
    | none => []
    | some (orig, sess) => [(sess, orig, tInput)]

/-- The result block for one content block: `none` for a text block,
exactly one `tool_result` for each `tool_use` block. -/
def blockResult (tm : ToolManager) (backend : Backend) :
    ContentBlock → Option ToolResultBlock
  | .text _ => none
  | .tool_use id name tInput => some (toolUseResult tm backend id name tInput)

/-- The body of the `for content_block in response.content` loop of
`process_query`, mirrored as a fold: it accumulates
`assistant_messages_so_far` (every block, verbatim),
`tool_results_for_claude` (one message per result, each with role "user"
and a single `tool_result` block), and the list of backend calls made. -/
def roundStep (tm : ToolManager) (backend : Backend)
    (acc : List ContentBlock × List Message × List (Session × String × String))
    (b : ContentBlock) :
    List ContentBlock × List Message × List (Session × String × String) :=
  let asst := acc.1 ++ [b]
  match b with
  | .text _ => (asst, acc.2.1, acc.2.2)
  | .tool_use id name tInput =>
    (asst,
      acc.2.1 ++
        [⟨"user", .ofResults [toolUseResult tm backend id name tInput]⟩],
      acc.2.2 ++ blockCalls tm (.tool_use id name tInput))

/-- One round of the `while response.stop_reason == "tool_use"` loop, up to
the two history appends: the accumulated assistant blocks, result messages
and backend calls. -/
def processRound (tm : ToolManager) (backend : Backend)
    (blocks : List ContentBlock) :
    List ContentBlock × List Message × List (Session × String × String) :=
  blocks.foldl (roundStep tm backend) ([], [], [])

/-- The history after one round:
`messages.append({"role": "assistant", "content": assistant_messages_so_far})`
then `messages.extend(tool_results_for_claude)`. -/
def roundMessages (tm : ToolManager) (backend : Backend)
    (messages : List Message) (blocks : List ContentBlock) : List Message :=
  let r := processRound tm backend blocks
  messages ++ [⟨"assistant", .ofBlocks r.1⟩] ++ r.2.1

/-- The tool-result blocks of one round, in production order. -/
def roundResultBlocks (tm : ToolManager) (backend : Backend)
    (blocks : List ContentBlock) : List ToolResultBlock :=
  blocks.filterMap (blockResult tm backend)

/-- A model response: stop reason and content blocks. -/
structure ModelResponse where
  stop_reason : String
  content : List ContentBlock
deriving DecidableEq, Repr

/-- The model API as an oracle: the next response as a function of the
message history (`self.anthropic.messages.create`). -/
def ModelApi := List Message → ModelResponse

/-- The `while response.stop_reason == "tool_use"` loop of `process_query`,
with fuel making the recursion structural (the source has no round limit):
each tool-use response is processed into one round, the two appends extend
the history, and the model is asked for the next response; a non-tool-use
response ends the loop with the final history and response. -/
def processQueryLoop (tm : ToolManager) (backend : Backend) (api : ModelApi) :
    Nat → ModelResponse → List Message → List Message × ModelResponse
  | 0, resp, messages => (messages, resp)
  | fuel + 1, resp, messages =>
    if resp.stop_reason = "tool_use" then
      let messages' := roundMessages tm backend messages resp.content
      processQueryLoop tm backend api fuel (api messages') messages'
    else
      (messages, resp)

/-! ## Claim-level definitions -/

/-- The catalog entry `add_session` appends for one tool, `p` already
normalised. -/
def mkDef (p : String) (t : Tool) : ToolDef :=
  ⟨p ++ t.name, "[" ++ strUpper (stripLast p) ++ "] " ++ t.description,
    t.inputSchema⟩

/-- The full catalog a registration sequence produces, in order. -/
def catalogOf : List Registration → List ToolDef
  | [] => []
  | r :: rest => r.2.2.map (mkDef (ensureUnderscore r.1)) ++ catalogOf rest

/-- The one-to-one correspondence C1 claims between the prefixed
identifiers of the merged catalog and the keys of the reverse mapping:
every catalog name occurs in exactly one catalog entry and exactly one
mapping entry, and every mapping key names exactly one catalog entry. -/
def catalogMappingOneToOne (tm : ToolManager) : Prop :=
  (∀ n ∈ catalogNames tm,
      (catalogNames tm).count n = 1 ∧
      (tm.get_available_tool_names).count n = 1) ∧
  (∀ k ∈ tm.get_available_tool_names, (catalogNames tm).count k = 1)

instance (tm : ToolManager) : Decidable (catalogMappingOneToOne tm) := by
  unfold catalogMappingOneToOne
  infer_instance

/-- The spec's normalisation of a registration prefix: it ends with the
separator underscore, one being appended exactly when absent. -/
def specNormalized (pfx : String) : String :=
  if endsWithUnderscore pfx then pfx else pfx ++ "_"

/-- The schema the spec says `register` appends for one tool: the name is
the normalised prefix concatenated with the original identifier, and the
description is the bracketed uppercased prefix (without its trailing
separator) followed by the original description. -/
def specSchema (pfx : String) (t : Tool) : ToolDef :=
  { name := specNormalized pfx ++ t.name,
    description :=
      "[" ++ strUpper (stripLast (specNormalized pfx)) ++ "] " ++
        t.description,
    input_schema := t.inputSchema }

/-- The catalog the spec says `listCatalog` returns after a sequence of
registrations: each registration's schemas in tool-list order, in
registration order. -/
def specCatalog : List Registration → List ToolDef
  | [] => []
  | r :: rest => r.2.2.map (specSchema r.1) ++ specCatalog rest

/-- The backend calls of a whole round, in block order. -/
def allCalls (tm : ToolManager) : List ContentBlock → List (Session × String × String)
  | [] => []
  | b :: rest => blockCalls tm b ++ allCalls tm rest

/-- The message wrapper `process_query` builds around one tool result:
`{"role": "user", "content": [<the single tool_result block>]}`. -/
def wrapResult (r : ToolResultBlock) : Message :=
  ⟨"user", .ofResults [r]⟩

/-- The correlation ids of the tool-invocation blocks of a response, in
emission order. -/
def toolUseIds : List ContentBlock → List String
  | [] => []
  | .text _ :: rest => toolUseIds rest
  | .tool_use id _ _ :: rest => id :: toolUseIds rest

/-- Concrete registry for the C3 counterexample: one tool `g_t`. -/
def c3TM : ToolManager := ToolManager.init.add_session "g" 1 [⟨"t", "d", "s"⟩]

/-- A backend that always returns a serializable payload. -/
def c3Backend : Backend := fun _ _ _ => .ok (.basic "ok")

/-- The two tool-invocation blocks of the C3 counterexample round. -/
def c3Blocks : List ContentBlock :=
  [.tool_use "id1" "g_t" "i1", .tool_use "id2" "g_t" "i2"]

/-! ## Helper lemmas: the dict model -/

theorem dictGet_dictInsert {α : Type} (l : List (String × α)) (k k' : String)
    (v : α) :
    dictGet (dictInsert l k v) k' = if k' = k then some v else dictGet l k' := by
  induction l with
  | nil =>
    by_cases h : k' = k <;> simp [dictInsert, dictGet, h]
  | cons hd tl ih =>
    obtain ⟨k₀, v₀⟩ := hd
    by_cases h0 : k = k₀
    · subst h0
      by_cases h : k' = k <;> simp [dictInsert, dictGet, h]
    · by_cases h : k' = k
      · subst h
        simp [dictInsert, dictGet, h0, Ne.symm h0, ih]
      · by_cases h1 : k' = k₀ <;>
          simp [dictInsert, dictGet, h0, Ne.symm h0, h1, h, ih]

theorem dictKeys_dictInsert_mem {α : Type} (l : List (String × α))
    (k : String) (v : α) :
    k ∈ dictKeys l → dictKeys (dictInsert l k v) = dictKeys l := by
  induction l with
  | nil => simp [dictKeys]
  | cons hd tl ih =>
    obtain ⟨k₀, v₀⟩ := hd
    intro h
    by_cases h0 : k = k₀
    · subst h0
      simp [dictInsert, dictKeys]
    · have h1 : k ∈ dictKeys tl := by
        simpa [dictKeys, h0] using h
      have hstep :
          dictInsert ((k₀, v₀) :: tl) k v = (k₀, v₀) :: dictInsert tl k v := by
        simp [dictInsert, h0]
      rw [hstep]
      have h2 := ih h1
      simp [dictKeys] at h2 ⊢
      exact h2

theorem dictKeys_dictInsert_not_mem {α : Type} (l : List (String × α))
    (k : String) (v : α) :
    k ∉ dictKeys l → dictKeys (dictInsert l k v) = dictKeys l ++ [k] := by
  induction l with
  | nil => simp [dictInsert, dictKeys]
  | cons hd tl ih =>
    obtain ⟨k₀, v₀⟩ := hd
    intro h
    simp [dictKeys] at h
    have hstep :
        dictInsert ((k₀, v₀) :: tl) k v = (k₀, v₀) :: dictInsert tl k v := by
      simp [dictInsert, h.1]
    rw [hstep]
    have h2 := ih (by simpa [dictKeys] using h.2)
    simp [dictKeys] at h2 ⊢
    exact h2

theorem dictGet_eq_none_of_not_mem {α : Type} (l : List (String × α))
    (k : String) (h : k ∉ dictKeys l) : dictGet l k = none := by
  induction l with
  | nil => rfl
  | cons hd tl ih =>
    obtain ⟨k₀, v₀⟩ := hd
    simp [dictKeys] at h
    simp [dictGet, h.1, ih (by simpa [dictKeys] using h.2)]

/-! ## Helper lemmas: strings -/

theorem strAppend_left_cancel {p a b : String} (h : p ++ a = p ++ b) :
    a = b := by
  have hd : (p ++ a).data = (p ++ b).data := by rw [h]
  simp only [String.data_append] at hd
  exact String.ext (List.append_cancel_left hd)

/-! ## Helper lemmas: `add_session` closed forms -/

theorem defs_foldl_addTool (p : String) (s : Session) :
    ∀ (tools : List Tool) (tm : ToolManager),
      (tools.foldl (addTool p s) tm).tool_definitions_for_claude =
        tm.tool_definitions_for_claude ++ tools.map (mkDef p) := by
  intro tools
  induction tools with
  | nil => intro tm; simp
  | cons hd tl ih =>
    intro tm
    rw [List.foldl_cons, ih]
    simp [addTool, mkDef]

theorem defs_add_session (tm : ToolManager) (pfx : String) (s : Session)
    (tools : List Tool) :
    (tm.add_session pfx s tools).tool_definitions_for_claude =
      tm.tool_definitions_for_claude ++
        tools.map (mkDef (ensureUnderscore pfx)) :=
  defs_foldl_addTool (ensureUnderscore pfx) s tools tm

theorem mapping_addTool (p : String) (s : Session) (tm : ToolManager)
    (t : Tool) :
    (addTool p s tm t).tool_mapping =
      dictInsert tm.tool_mapping (p ++ t.name) (t.name, s) := rfl

theorem dictGet_foldl_addTool_not_mem (p : String) (s : Session) :
    ∀ (tools : List Tool) (tm : ToolManager) (key : String),
      key ∉ tools.map (fun t => p ++ t.name) →
      dictGet (tools.foldl (addTool p s) tm).tool_mapping key =
        dictGet tm.tool_mapping key := by
  intro tools
  induction tools with
  | nil => intro tm key _; rfl
  | cons hd tl ih =>
    intro tm key h
    simp only [List.map_cons, List.mem_cons, not_or] at h
    rw [List.foldl_cons, ih _ _ h.2, mapping_addTool, dictGet_dictInsert,
      if_neg h.1]

theorem dictGet_foldl_addTool_mem (p : String) (s : Session) :
    ∀ (tools : List Tool) (tm : ToolManager) (t : Tool), t ∈ tools →
      dictGet (tools.foldl (addTool p s) tm).tool_mapping (p ++ t.name) =
        some (t.name, s) := by
  intro tools
  induction tools with
  | nil => intro tm t h; simp at h
  | cons hd tl ih =>
    intro tm t h
    rcases List.mem_cons.mp h with rfl | hmem
    · by_cases hx : ∃ u ∈ tl, p ++ u.name = p ++ t.name
      · obtain ⟨u, hu, hequ⟩ := hx
        have hname : u.name = t.name := strAppend_left_cancel hequ
        rw [List.foldl_cons]
        have := ih (addTool p s tm t) u hu
        rw [hname] at this
        exact this
      · have hnot : p ++ t.name ∉ tl.map (fun u => p ++ u.name) := by
          intro hmem
          obtain ⟨u, hu, hequ⟩ := List.mem_map.mp hmem
          exact hx ⟨u, hu, hequ⟩
        rw [List.foldl_cons, dictGet_foldl_addTool_not_mem p s tl _ _ hnot,
          mapping_addTool, dictGet_dictInsert, if_pos rfl]
    · exact ih _ t hmem

theorem get_add_session_not_mem (tm : ToolManager) (pfx : String)
    (s : Session) (tools : List Tool) (key : String)
    (h : key ∉ genKeys pfx tools) :
    (tm.add_session pfx s tools).get_tool_call_details key =
      tm.get_tool_call_details key :=
  dictGet_foldl_addTool_not_mem (ensureUnderscore pfx) s tools tm key h

theorem get_add_session_mem (tm : ToolManager) (pfx : String) (s : Session)
    (tools : List Tool) (t : Tool) (h : t ∈ tools) :
    (tm.add_session pfx s tools).get_tool_call_details
      (ensureUnderscore pfx ++ t.name) = some (t.name, s) :=
  dictGet_foldl_addTool_mem (ensureUnderscore pfx) s tools tm t h

theorem dictKeys_foldl_addTool (p : String) (s : Session) :
    ∀ (tools : List Tool) (tm : ToolManager),
      (dictKeys tm.tool_mapping ++
        tools.map (fun t => p ++ t.name)).Nodup →
      dictKeys (tools.foldl (addTool p s) tm).tool_mapping =
        dictKeys tm.tool_mapping ++ tools.map (fun t => p ++ t.name) := by
  intro tools
  induction tools with
  | nil => intro tm _; simp
  | cons hd tl ih =>
    intro tm h
    simp only [List.map_cons] at h ⊢
    rcases List.nodup_append.mp h with ⟨hA, hB, hdisj⟩
    have hkey0 : (p ++ hd.name) ∉ dictKeys tm.tool_mapping :=
      fun hmem => hdisj hmem (List.mem_cons_self _ _)
    have hkeys1 : dictKeys (addTool p s tm hd).tool_mapping =
        dictKeys tm.tool_mapping ++ [p ++ hd.name] := by
      rw [mapping_addTool]
      exact dictKeys_dictInsert_not_mem _ _ _ hkey0
    have hnodup' :
        (dictKeys (addTool p s tm hd).tool_mapping ++
          tl.map (fun t => p ++ t.name)).Nodup := by
      rw [hkeys1, List.append_assoc]
      simpa using h
    rw [List.foldl_cons, ih _ hnodup', hkeys1, List.append_assoc]
    simp

/-! ## Helper lemmas: registration sequences -/

theorem defs_foldl_regs :
    ∀ (regs : List Registration) (tm : ToolManager),
      (regs.foldl (fun tm r => tm.add_session r.1 r.2.1 r.2.2)
          tm).tool_definitions_for_claude =
        tm.tool_definitions_for_claude ++ catalogOf regs := by
  intro regs
  induction regs with
  | nil => intro tm; simp [catalogOf]
  | cons r rest ih =>
    intro tm
    rw [List.foldl_cons, ih, defs_add_session, catalogOf, List.append_assoc]

theorem defs_runRegs (regs : List Registration) :
    (runRegs regs).tool_definitions_for_claude = catalogOf regs := by
  rw [runRegs, defs_foldl_regs]
  rfl

theorem names_catalogOf :
    ∀ regs : List Registration, (catalogOf regs).map (·.name) = allKeys regs := by
  intro regs
  induction regs with
  | nil => rfl
  | cons r rest ih =>
    simp only [catalogOf, allKeys, List.map_append, ih, List.map_map]
    rfl

theorem catalogNames_runRegs (regs : List Registration) :
    catalogNames (runRegs regs) = allKeys regs := by
  rw [catalogNames, defs_runRegs, names_catalogOf]

theorem get_foldl_regs_not_mem :
    ∀ (regs : List Registration) (tm : ToolManager) (key : String),
      key ∉ allKeys regs →
      (regs.foldl (fun tm r => tm.add_session r.1 r.2.1 r.2.2)
          tm).get_tool_call_details key = tm.get_tool_call_details key := by
  intro regs
  induction regs with
  | nil => intro tm key _; rfl
  | cons r rest ih =>
    intro tm key h
    simp only [allKeys, List.mem_append, not_or] at h
    rw [List.foldl_cons, ih _ _ h.2, get_add_session_not_mem _ _ _ _ _ h.1]

theorem keys_foldl_regs :
    ∀ (regs : List Registration) (tm : ToolManager),
      (dictKeys tm.tool_mapping ++ allKeys regs).Nodup →
      dictKeys (regs.foldl (fun tm r => tm.add_session r.1 r.2.1 r.2.2)
          tm).tool_mapping =
        dictKeys tm.tool_mapping ++ allKeys regs := by
  intro regs
  induction regs with
  | nil => intro tm _; simp [allKeys]
  | cons r rest ih =>
    intro tm h
    simp only [allKeys] at h ⊢
    have hsplit :
        dictKeys tm.tool_mapping ++ (genKeys r.1 r.2.2 ++ allKeys rest) =
          (dictKeys tm.tool_mapping ++ genKeys r.1 r.2.2) ++ allKeys rest := by
      rw [List.append_assoc]
    have hfirst :
        dictKeys (tm.add_session r.1 r.2.1 r.2.2).tool_mapping =
          dictKeys tm.tool_mapping ++ genKeys r.1 r.2.2 := by
      have hn : (dictKeys tm.tool_mapping ++ genKeys r.1 r.2.2).Nodup := by
        rw [hsplit] at h
        exact (List.nodup_append.mp h).1
      exact dictKeys_foldl_addTool (ensureUnderscore r.1) r.2.1 r.2.2 tm hn
    have hnodup' :
        (dictKeys (tm.add_session r.1 r.2.1 r.2.2).tool_mapping ++
          allKeys rest).Nodup := by
      rw [hfirst, ← hsplit]
      exact h
    rw [List.foldl_cons, ih _ hnodup', hfirst, List.append_assoc]

theorem keys_runRegs (regs : List Registration)
    (h : (allKeys regs).Nodup) :
    dictKeys (runRegs regs).tool_mapping = allKeys regs := by
  rw [runRegs, keys_foldl_regs regs ToolManager.init (by simpa using h)]
  rfl

/-! ## Claim C1 -/

/-- C1 counterexample: registering the same prefix and tool name twice
leaves two catalog entries named `a_t` but a single mapping entry, so the
claimed one-to-one correspondence fails after this registration sequence. -/
theorem C1_counterexample :
    ¬ catalogMappingOneToOne
        (runRegs [("a", 0, [⟨"t", "d", "s"⟩]), ("a", 0, [⟨"t", "d", "s"⟩])]) := by
  decide

/-- C1 (amended): after a sequence of registrations whose generated
prefixed identifiers are pairwise distinct (no overwrite occurs), the
prefixed identifiers in the merged catalog and the keys of the reverse
mapping are in one-to-one correspondence: every catalog name occurs in
exactly one catalog entry and has exactly one reverse-mapping entry, and
every reverse-mapping key names exactly one catalog entry. -/
theorem C1_one_to_one_of_nodup (regs : List Registration)
    (h : (allKeys regs).Nodup) : catalogMappingOneToOne (runRegs regs) := by
  have hc : catalogNames (runRegs regs) = allKeys regs :=
    catalogNames_runRegs regs
  have hk : (runRegs regs).get_available_tool_names = allKeys regs :=
    keys_runRegs regs h
  constructor
  · intro n hn
    rw [hc] at hn ⊢
    rw [hk]
    exact ⟨List.count_eq_one_of_mem h hn, List.count_eq_one_of_mem h hn⟩
  · intro k hk'
    rw [hk] at hk'
    rw [hc]
    exact List.count_eq_one_of_mem h hk'

/-- C1 witness: two registrations with distinct prefixed identifiers
satisfy the hypothesis and the correspondence. -/
theorem C1_witness :
    (allKeys [("github", 1, [⟨"a", "d", "s"⟩]),
        ("actions", 2, [⟨"a", "d", "s"⟩])]).Nodup ∧
    catalogMappingOneToOne
      (runRegs [("github", 1, [⟨"a", "d", "s"⟩]),
        ("actions", 2, [⟨"a", "d", "s"⟩])]) :=
  ⟨by decide, C1_one_to_one_of_nodup _ (by decide)⟩

/-! ## Claim C2 -/

/-- C2 counterexample: the prefix passed to `add_session` is normalised
with a trailing underscore, so for the registration under the prefix
`github` (as `connect_to_servers` passes it) the lookup of the unmodified
concatenation `github` + `list_repos` does not return the registered pair
(it returns `none`: the stored key is `github_list_repos`). -/
theorem C2_counterexample :
    (runRegs [("github", 0, [⟨"list_repos", "d", "s"⟩])]).get_tool_call_details
      ("github" ++ "list_repos") ≠ some ("list_repos", 0) := by
  decide

/-- C2 (amended): for every registration sequence and every tool `t`
registered under prefix `pfx`, if no later registration generates the same
prefixed identifier, then resolving the normalised prefix (trailing
underscore appended when absent) concatenated with the tool's identifier
returns exactly the `(toolId, session)` pair registered under that
prefix. -/
theorem C2_resolve_registered (pre post : List Registration) (pfx : String)
    (s : Session) (tools : List Tool) (t : Tool) (ht : t ∈ tools)
    (hpost : ensureUnderscore pfx ++ t.name ∉ allKeys post) :
    (runRegs (pre ++ (pfx, s, tools) :: post)).get_tool_call_details
      (ensureUnderscore pfx ++ t.name) = some (t.name, s) := by
  rw [runRegs, List.foldl_append, List.foldl_cons]
  rw [get_foldl_regs_not_mem post _ _ hpost]
  exact get_add_session_mem _ _ _ _ _ ht

/-- C2 witness: a concrete registration under prefix `github` resolved at
`github_list_repos`. -/
theorem C2_witness :
    (⟨"list_repos", "d", "s"⟩ : Tool) ∈ [(⟨"list_repos", "d", "s"⟩ : Tool)] ∧
    ensureUnderscore "github" ++ "list_repos" ∉ allKeys [] ∧
    (runRegs ([] ++ ("github", 5, [(⟨"list_repos", "d", "s"⟩ : Tool)]) ::
        [])).get_tool_call_details
      (ensureUnderscore "github" ++ "list_repos") = some ("list_repos", 5) :=
  ⟨by decide, by decide,
    C2_resolve_registered [] [] "github" 5 [⟨"list_repos", "d", "s"⟩]
      ⟨"list_repos", "d", "s"⟩ (by decide) (by decide)⟩

/-! ## Claim C9 -/

theorem specSchema_eq_mkDef (pfx : String) :
    specSchema pfx = mkDef (ensureUnderscore pfx) := by
  funext t
  rfl

/-- C9: after every sequence of registrations, the catalog returned by
`get_all_tools_for_claude` equals, entry by entry and in registration
order, the spec's schemas: normalised prefix concatenated with the
original identifier as name, and `[` + prefix-without-separator uppercased
+ `] ` + original description as description. -/
theorem C9_catalog_matches_spec (regs : List Registration) :
    (runRegs regs).get_all_tools_for_claude = specCatalog regs := by
  rw [ToolManager.get_all_tools_for_claude, defs_runRegs]
  induction regs with
  | nil => rfl
  | cons r rest ih =>
    rw [catalogOf, specCatalog, ih, specSchema_eq_mkDef]

/-! ## Helper lemmas: the tool-use round -/

theorem foldl_roundStep (tm : ToolManager) (backend : Backend) :
    ∀ (blocks : List ContentBlock)
      (acc : List ContentBlock × List Message ×
        List (Session × String × String)),
      blocks.foldl (roundStep tm backend) acc =
        (acc.1 ++ blocks,
          acc.2.1 ++ (blocks.filterMap (blockResult tm backend)).map wrapResult,
          acc.2.2 ++ allCalls tm blocks) := by
  intro blocks
  induction blocks with
  | nil => intro acc; simp [allCalls]
  | cons b rest ih =>
    intro acc
    rw [List.foldl_cons, ih]
    cases b with
    | text s =>
      simp [roundStep, blockResult, blockCalls, allCalls]
    | tool_use id name tInput =>
      simp [roundStep, blockResult, blockCalls, allCalls, wrapResult]

theorem processRound_eq (tm : ToolManager) (backend : Backend)
    (blocks : List ContentBlock) :
    processRound tm backend blocks =
      (blocks,
        (roundResultBlocks tm backend blocks).map wrapResult,
        allCalls tm blocks) := by
  rw [processRound, foldl_roundStep]
  simp [roundResultBlocks]

theorem roundMessages_eq (tm : ToolManager) (backend : Backend)
    (messages : List Message) (blocks : List ContentBlock) :
    roundMessages tm backend messages blocks =
      messages ++ [⟨"assistant", .ofBlocks blocks⟩] ++
        (roundResultBlocks tm backend blocks).map wrapResult := by
  rw [roundMessages, processRound_eq]

theorem toolUseResult_id (tm : ToolManager) (backend : Backend)
    (id name tInput : String) :
    (toolUseResult tm backend id name tInput).tool_use_id = id := by
  cases htm : tm.get_tool_call_details name with
  | none => simp [toolUseResult, htm]
  | some pr =>
    obtain ⟨orig, sess⟩ := pr
    cases hb : backend sess orig tInput with
    | error e => simp [toolUseResult, htm, hb]
    | ok p => cases p <;> simp [toolUseResult, htm, hb]

/-! ## Claim C3 -/

/-- C3 counterexample: in a round with two tool-invocation blocks the code
appends one `{"role": "user"}` message per result (two messages), not a
single container turn holding both results, so the claimed history shape
fails at this concrete round. -/
theorem C3_counterexample :
    roundMessages c3TM c3Backend [] c3Blocks ≠
      [] ++ [⟨"assistant", .ofBlocks c3Blocks⟩,
        ⟨"user", .ofResults (roundResultBlocks c3TM c3Backend c3Blocks)⟩] := by
  decide

/-- C3 (amended): within one tool-use round, after the assistant's turn is
appended verbatim, the tool-result blocks produced in that round are
appended as consecutive turns with role `user`, one turn per result block
in production order, each holding exactly that single result (one turn per
result, not one container turn per round). -/
theorem C3_one_turn_per_result (tm : ToolManager) (backend : Backend)
    (messages : List Message) (blocks : List ContentBlock) :
    roundMessages tm backend messages blocks =
      messages ++ [⟨"assistant", .ofBlocks blocks⟩] ++
        (roundResultBlocks tm backend blocks).map
          (fun r => ⟨"user", .ofResults [r]⟩) :=
  roundMessages_eq tm backend messages blocks

/-! ## Claim C4 -/

/-- C4: a tool-invocation block whose prefixed name is not in the registry
yields a tool-result block carrying that block's correlation id, the
client-error text and `is_error = true`; the block appears among the
round's results, and no backend call is made for that block. -/
theorem C4_unknown_tool (tm : ToolManager) (backend : Backend)
    (blocks : List ContentBlock) (id name tInput : String)
    (hmem : ContentBlock.tool_use id name tInput ∈ blocks)
    (hnone : tm.get_tool_call_details name = none) :
    toolUseResult tm backend id name tInput =
      ⟨id, "Client error: Tool '" ++ name ++ "' is not recognized or available.",
        true⟩ ∧
    (⟨id, "Client error: Tool '" ++ name ++ "' is not recognized or available.",
        true⟩ : ToolResultBlock) ∈ roundResultBlocks tm backend blocks ∧
    blockCalls tm (.tool_use id name tInput) = [] := by
  have hres : toolUseResult tm backend id name tInput =
      ⟨id, "Client error: Tool '" ++ name ++
        "' is not recognized or available.", true⟩ := by
    unfold toolUseResult
    rw [hnone]
  refine ⟨hres, ?_, ?_⟩
  · rw [roundResultBlocks]
    exact List.mem_filterMap.mpr
      ⟨ContentBlock.tool_use id name tInput, hmem, by rw [blockResult, hres]⟩
  · rw [blockCalls, hnone]

/-- C4 witness: with an empty registry, the block `missing_tool` produces
the error result and no backend call. -/
theorem C4_witness :
    (ContentBlock.tool_use "id7" "missing_tool" "inp") ∈
      [ContentBlock.tool_use "id7" "missing_tool" "inp"] ∧
    ToolManager.init.get_tool_call_details "missing_tool" = none ∧
    (toolUseResult ToolManager.init c3Backend "id7" "missing_tool" "inp" =
      ⟨"id7", "Client error: Tool '" ++ "missing_tool" ++
        "' is not recognized or available.", true⟩ ∧
    (⟨"id7", "Client error: Tool '" ++ "missing_tool" ++
        "' is not recognized or available.", true⟩ : ToolResultBlock) ∈
      roundResultBlocks ToolManager.init c3Backend
        [ContentBlock.tool_use "id7" "missing_tool" "inp"] ∧
    blockCalls ToolManager.init
      (.tool_use "id7" "missing_tool" "inp") = []) :=
  ⟨by decide, by decide,
    C4_unknown_tool ToolManager.init c3Backend
      [ContentBlock.tool_use "id7" "missing_tool" "inp"]
      "id7" "missing_tool" "inp" (by decide) (by decide)⟩

/-! ## Claim C5 -/

/-- C5: when the owning backend raises during a tool invocation, the
exception is converted at the call site into a tool-result block with
`is_error = true` whose content ends with the exception's description;
the block appears among the round's results, and the loop proceeds to
request the next model turn (one more `messages.create` call on the
extended history) instead of terminating the query. -/
theorem C5_backend_exception (tm : ToolManager) (backend : Backend)
    (api : ModelApi) (fuel : Nat) (messages : List Message)
    (blocks : List ContentBlock) (id name tInput orig e : String)
    (sess : Session)
    (hmem : ContentBlock.tool_use id name tInput ∈ blocks)
    (hfound : tm.get_tool_call_details name = some (orig, sess))
    (herr : backend sess orig tInput = .error e) :
    toolUseResult tm backend id name tInput =
      ⟨id, "Error executing tool '" ++ name ++ "': " ++ e, true⟩ ∧
    (∃ a, "Error executing tool '" ++ name ++ "': " ++ e = a ++ e) ∧
    (⟨id, "Error executing tool '" ++ name ++ "': " ++ e, true⟩ :
        ToolResultBlock) ∈ roundResultBlocks tm backend blocks ∧
    processQueryLoop tm backend api (fuel + 1) ⟨"tool_use", blocks⟩ messages =
      processQueryLoop tm backend api fuel
        (api (roundMessages tm backend messages blocks))
        (roundMessages tm backend messages blocks) := by
  have hres : toolUseResult tm backend id name tInput =
      ⟨id, "Error executing tool '" ++ name ++ "': " ++ e, true⟩ := by
    simp [toolUseResult, hfound, herr]
  refine ⟨hres, ⟨"Error executing tool '" ++ name ++ "': ", rfl⟩, ?_, ?_⟩
  · rw [roundResultBlocks]
    exact List.mem_filterMap.mpr
      ⟨ContentBlock.tool_use id name tInput, hmem, by rw [blockResult, hres]⟩
  · simp [processQueryLoop]

/-- C5 witness: a registry with tool `g_t`, a backend that raises with
description `boom`, and a model oracle that always stops. -/
theorem C5_witness :
    (ContentBlock.tool_use "id1" "g_t" "inp") ∈
      [ContentBlock.tool_use "id1" "g_t" "inp"] ∧
    c3TM.get_tool_call_details "g_t" = some ("t", 1) ∧
    (fun _ _ _ => Except.error "boom" : Backend) 1 "t" "inp" =
      Except.error "boom" ∧
    (toolUseResult c3TM (fun _ _ _ => Except.error "boom") "id1" "g_t" "inp" =
      ⟨"id1", "Error executing tool '" ++ "g_t" ++ "': " ++ "boom", true⟩ ∧
    (∃ a, "Error executing tool '" ++ "g_t" ++ "': " ++ "boom" = a ++ "boom") ∧
    (⟨"id1", "Error executing tool '" ++ "g_t" ++ "': " ++ "boom", true⟩ :
        ToolResultBlock) ∈
      roundResultBlocks c3TM (fun _ _ _ => Except.error "boom")
        [ContentBlock.tool_use "id1" "g_t" "inp"] ∧
    processQueryLoop c3TM (fun _ _ _ => Except.error "boom")
        (fun _ => ⟨"end_turn", []⟩) (3 + 1)
        ⟨"tool_use", [ContentBlock.tool_use "id1" "g_t" "inp"]⟩ [] =
      processQueryLoop c3TM (fun _ _ _ => Except.error "boom")
        (fun _ => ⟨"end_turn", []⟩) 3
        ((fun _ => (⟨"end_turn", []⟩ : ModelResponse))
          (roundMessages c3TM (fun _ _ _ => Except.error "boom") []
            [ContentBlock.tool_use "id1" "g_t" "inp"]))
        (roundMessages c3TM (fun _ _ _ => Except.error "boom") []
          [ContentBlock.tool_use "id1" "g_t" "inp"])) :=
  ⟨by decide, by decide, rfl,
    C5_backend_exception c3TM (fun _ _ _ => Except.error "boom")
      (fun _ => ⟨"end_turn", []⟩) 3 []
      [ContentBlock.tool_use "id1" "g_t" "inp"]
      "id1" "g_t" "inp" "t" "boom" 1 (by decide) (by decide) rfl⟩

/-! ## Claim C8 -/

/-- C8: in a tool-use round, each tool-invocation block yields exactly one
tool-result block, the result's correlation id equals the originating
block's id, and the results appear in the same order as their originating
blocks: the ids of the round's results, in order, are exactly the ids of
the tool-invocation blocks, in order. -/
theorem C8_result_ids_in_order (tm : ToolManager) (backend : Backend)
    (blocks : List ContentBlock) :
    (roundResultBlocks tm backend blocks).map (·.tool_use_id) =
      toolUseIds blocks := by
  induction blocks with
  | nil => rfl
  | cons b rest ih =>
    cases b with
    | text s =>
      simpa [roundResultBlocks, blockResult, toolUseIds]
        using ih
    | tool_use id name tInput =>
      simp only [roundResultBlocks, List.filterMap_cons, blockResult,
        toolUseIds, List.map_cons] at ih ⊢
      rw [toolUseResult_id]
      exact congrArg (id :: ·) ih

/-! ## Helper lemmas: connection phase -/

theorem dictInsert_ne_nil {α : Type} (l : List (String × α)) (k : String)
    (v : α) : dictInsert l k v ≠ [] := by
  cases l with
  | nil => simp [dictInsert]
  | cons hd tl =>
    obtain ⟨k0, v0⟩ := hd
    by_cases h : k = k0 <;> simp [dictInsert, h]

theorem connectSingle_ok_snd (st : ClientState) (p : String) (s : Session)
    (tools : List Tool) :
    (connectSingleServer st p s (.ok tools)).2 = true := by
  by_cases h : tools = [] <;> simp [connectSingleServer, h]

theorem connectSingle_ok_sessions (st : ClientState) (p : String)
    (s : Session) (tools : List Tool) :
    (connectSingleServer st p s (.ok tools)).1.sessions =
      dictInsert st.sessions p s := by
  by_cases h : tools = [] <;> simp [connectSingleServer, h]

theorem connectSingle_ok_connected (st : ClientState) (p : String)
    (s : Session) (tools : List Tool) :
    (connectSingleServer st p s (.ok tools)).1.connected = st.connected := by
  by_cases h : tools = [] <;> simp [connectSingleServer, h]

theorem connectSingle_ok_stack (st : ClientState) (p : String) (s : Session)
    (tools : List Tool) :
    (connectSingleServer st p s (.ok tools)).1.exit_stack =
      st.exit_stack ++ (ConnectOutcome.ok tools).acquired p := by
  by_cases h : tools = [] <;> simp [connectSingleServer, h]

theorem connectSingle_ok_tm (st : ClientState) (p : String) (s : Session)
    (tools : List Tool) :
    (connectSingleServer st p s (.ok tools)).1.tool_manager =
      if tools ≠ [] then st.tool_manager.add_session p s tools
      else st.tool_manager := by
  by_cases h : tools = [] <;> simp [connectSingleServer, h]

theorem connectSingle_fail (st : ClientState) (p : String) (s : Session)
    (o : ConnectOutcome) (h : o.isFailure = true) :
    connectSingleServer st p s o =
      ({ st with exit_stack := st.exit_stack ++ o.acquired p }, false) := by
  cases o with
  | ok tools => simp [ConnectOutcome.isFailure] at h
  | transportRaises => rfl
  | sessionRaises => rfl
  | initRaises => rfl
  | listToolsRaises => rfl

theorem connectSingle_stack (st : ClientState) (p : String) (s : Session)
    (o : ConnectOutcome) :
    (connectSingleServer st p s o).1.exit_stack =
      st.exit_stack ++ o.acquired p := by
  cases o with
  | ok tools => exact connectSingle_ok_stack st p s tools
  | transportRaises => rfl
  | sessionRaises => rfl
  | initRaises => rfl
  | listToolsRaises => rfl

theorem connectSingle_sessions (st : ClientState) (p : String) (s : Session)
    (o : ConnectOutcome) :
    (connectSingleServer st p s o).1.sessions =
      if o.isFailure then st.sessions else dictInsert st.sessions p s := by
  cases o with
  | ok tools =>
    simpa [ConnectOutcome.isFailure] using connectSingle_ok_sessions st p s tools
  | transportRaises => rfl
  | sessionRaises => rfl
  | initRaises => rfl
  | listToolsRaises => rfl

theorem acloseLog_eq_reverse : ∀ l : List Resource, acloseLog l = l.reverse := by
  intro l
  induction l with
  | nil => rfl
  | cons r rest ih => simp [acloseLog, ih]

theorem connectSingle_connected (st : ClientState) (p : String) (s : Session)
    (o : ConnectOutcome) :
    (connectSingleServer st p s o).1.connected = st.connected := by
  cases o with
  | ok tools => exact connectSingle_ok_connected st p s tools
  | transportRaises => rfl
  | sessionRaises => rfl
  | initRaises => rfl
  | listToolsRaises => rfl

theorem connectToServers_fail_ok (ghSess acSess : Session)
    (gh : ConnectOutcome) (tools : List Tool) (hfail : gh.isFailure = true) :
    connectToServers ghSess acSess gh (.ok tools) =
      ({ tool_manager :=
            if tools ≠ [] then
              ToolManager.init.add_session "actions" acSess tools
            else ToolManager.init,
          sessions := [("actions", acSess)],
          connected := true,
          exit_stack :=
            gh.acquired "github" ++
              (ConnectOutcome.ok tools).acquired "actions" }, false) := by
  cases gh with
  | ok tools0 => simp [ConnectOutcome.isFailure] at hfail
  | transportRaises =>
    by_cases htools : tools = [] <;>
      simp [connectToServers, connectSingleServer, ClientState.init,
        ToolManager.init, dictInsert, ConnectOutcome.acquired, htools]
  | sessionRaises =>
    by_cases htools : tools = [] <;>
      simp [connectToServers, connectSingleServer, ClientState.init,
        ToolManager.init, dictInsert, ConnectOutcome.acquired, htools]
  | initRaises =>
    by_cases htools : tools = [] <;>
      simp [connectToServers, connectSingleServer, ClientState.init,
        ToolManager.init, dictInsert, ConnectOutcome.acquired, htools]
  | listToolsRaises =>
    by_cases htools : tools = [] <;>
      simp [connectToServers, connectSingleServer, ClientState.init,
        ToolManager.init, dictInsert, ConnectOutcome.acquired, htools]

theorem connectToServers_stack (ghSess acSess : Session)
    (gh ac : ConnectOutcome) :
    (connectToServers ghSess acSess gh ac).1.exit_stack =
      gh.acquired "github" ++ ac.acquired "actions" := by
  simp only [connectToServers]
  split <;> simp [connectSingle_stack, ClientState.init]

/-! ## Claim C6 -/

/-- C6: after attempting both configured backends the process terminates
fatally (the `sys.exit(1)` flag is set, and the query loop is not entered
since `connected` stays false) exactly when both connection attempts
failed; a backend whose handshake succeeds with an empty tool catalog
still returns success, so with one live empty-catalog backend and one
failed backend the client proceeds (`connected = true`) with an empty
merged catalog — degraded text-only mode. -/
theorem C6_fatal_iff_zero_live (ghSess acSess : Session)
    (gh ac : ConnectOutcome) :
    ((connectToServers ghSess acSess gh ac).2 =
      (gh.isFailure && ac.isFailure)) ∧
    ((connectToServers ghSess acSess gh ac).1.connected =
      !(gh.isFailure && ac.isFailure)) ∧
    (∀ (st : ClientState) (p : String) (s : Session),
        (connectSingleServer st p s (.ok [])).2 = true) ∧
    ((connectToServers ghSess acSess (.ok []) .transportRaises).1.connected =
        true ∧
      (connectToServers ghSess acSess (.ok [])
          .transportRaises).1.tool_manager.get_all_tools_for_claude = []) := by
  refine ⟨?_, ?_, fun st p s => connectSingle_ok_snd st p s [], ?_, ?_⟩
  · by_cases hg : gh.isFailure <;> by_cases ha : ac.isFailure <;>
      simp [connectToServers, connectSingle_sessions, hg, ha,
        ClientState.init, dictInsert_ne_nil]
  · by_cases hg : gh.isFailure <;> by_cases ha : ac.isFailure <;>
      simp [connectToServers, connectSingle_sessions, connectSingle_connected,
        hg, ha, ClientState.init, dictInsert_ne_nil]
  · simp [connectToServers, connectSingleServer, ClientState.init, dictInsert]
  · simp [connectToServers, connectSingleServer, ClientState.init, dictInsert,
      ToolManager.init, ToolManager.get_all_tools_for_claude]

/-! ## Claim C7 -/

/-- C7: when connecting the first backend raises anywhere in the `try`
block, `_connect_single_server` returns `False` (the exception does not
escape, the function being total), the second backend is still attempted,
and when it succeeds the connection phase is not fatal, `connected` is set,
the surviving session is exactly the second backend's, and the merged
catalog holds exactly the second backend's tools. -/
theorem C7_partial_failure (ghSess acSess : Session) (gh : ConnectOutcome)
    (tools : List Tool) (hfail : gh.isFailure = true) :
    (connectSingleServer ClientState.init "github" ghSess gh).2 = false ∧
    (connectToServers ghSess acSess gh (.ok tools)).2 = false ∧
    (connectToServers ghSess acSess gh (.ok tools)).1.connected = true ∧
    (connectToServers ghSess acSess gh (.ok tools)).1.sessions =
      [("actions", acSess)] ∧
    (connectToServers ghSess acSess gh
        (.ok tools)).1.tool_manager.get_all_tools_for_claude =
      tools.map (mkDef (ensureUnderscore "actions")) := by
  have h1 := connectSingle_fail ClientState.init "github" ghSess gh hfail
  have h2 := connectToServers_fail_ok ghSess acSess gh tools hfail
  refine ⟨by rw [h1], by rw [h2], by rw [h2], by rw [h2], ?_⟩
  rw [h2]
  by_cases htools : tools = [] <;>
    simp [htools, ToolManager.get_all_tools_for_claude, defs_add_session,
      ToolManager.init]

/-- C7 witness: the github backend raising at transport acquisition, the
actions backend succeeding with one tool. -/
theorem C7_witness :
    (ConnectOutcome.transportRaises).isFailure = true ∧
    ((connectSingleServer ClientState.init "github" 1
        .transportRaises).2 = false ∧
    (connectToServers 1 2 .transportRaises
        (.ok [⟨"list_workflows", "d", "s"⟩])).2 = false ∧
    (connectToServers 1 2 .transportRaises
        (.ok [⟨"list_workflows", "d", "s"⟩])).1.connected = true ∧
    (connectToServers 1 2 .transportRaises
        (.ok [⟨"list_workflows", "d", "s"⟩])).1.sessions = [("actions", 2)] ∧
    (connectToServers 1 2 .transportRaises
        (.ok [⟨"list_workflows", "d", "s"⟩])).1.tool_manager.get_all_tools_for_claude =
      [⟨"list_workflows", "d", "s"⟩].map (mkDef (ensureUnderscore "actions"))) :=
  ⟨by decide,
    C7_partial_failure 1 2 .transportRaises [⟨"list_workflows", "d", "s"⟩]
      (by decide)⟩

/-! ## Claim C10 -/

/-- C10: teardown via `cleanup` releases every resource entered on the
exit stack during connection setup (transport and session, per backend) in
strict reverse order of acquisition: the release log equals the exact
reverse of the acquisition sequence, which itself is the first backend's
resources followed by the second backend's, in acquisition order. -/
theorem C10_teardown_reverse (ghSess acSess : Session)
    (gh ac : ConnectOutcome) :
    cleanupLog (connectToServers ghSess acSess gh ac).1 =
      ((connectToServers ghSess acSess gh ac).1.exit_stack).reverse ∧
    (connectToServers ghSess acSess gh ac).1.exit_stack =
      gh.acquired "github" ++ ac.acquired "actions" :=
  ⟨acloseLog_eq_reverse _, connectToServers_stack ghSess acSess gh ac⟩

end MultiMCP
